import Mathlib

/-!
Verification of the blueberry-browser computer-use control loop against its
natural-language specification.

The definitions below are a shallow embedding of the TypeScript sources:
 - `src/main/LLMClient.ts` (coordinate mapper, action executor, frame capture,
   instruction store, history sanitizer)
 - `src/main/gemini/GeminiComputerUseAgent.ts` (agent run loop)
 - `src/shared/navigationPretty.ts` (navigation log formatter)

JavaScript numbers are modelled as rationals (`ℚ`) with explicit `Math.floor`
/ `Math.round` semantics; JS strings are modelled as `List Char`; fallible or
nondeterministic environment interactions (screenshots, DOM readiness, drift
detection) are modelled as explicit parameters.
-/

namespace BlueberryCU

/-- `Math.round` for finite JS numbers: round half toward +infinity,
`Math.round(x) = Math.floor(x + 0.5)`. -/
def jsRound (q : ℚ) : ℤ := ⌊q + 1/2⌋

theorem jsRound_mono {a b : ℚ} (h : a ≤ b) : jsRound a ≤ jsRound b :=
  Int.floor_le_floor (by linarith)

/-! ## Coordinate Mapper (`LLMClient.ts`, `denormalizeCoord`, lines 1172-1180,
and the clamped offset mapping in `executeComputerUseAction`, lines 1617-1630) -/

/-- A JS value passed as a coordinate argument.  `Number(value)` coerces:
an absent argument (`undefined`) and a non-numeric string both give `NaN`;
a numeric string gives its value; `NaN`/`Infinity` are non-finite numbers. -/
inductive CoordArg
  | absent
  | nonNumericStr
  | numericStr (q : ℚ)
  | nan
  | infinite
  | num (q : ℚ)
  deriving DecidableEq

/-- `typeof value === "number" ? value : Number(value)` followed by the
`Number.isFinite` test: `none` means the coerced number is not finite. -/
def CoordArg.toFiniteNumber : CoordArg → Option ℚ
  | .absent => none
  | .nonNumericStr => none
  | .numericStr q => some q
  | .nan => none
  | .infinite => none
  | .num q => some q

/-- `denormalizeCoord(value, max)` from `LLMClient.ts`:
non-finite input maps to 0; values in `[0,1]` are treated as fractional,
anything else as `[0,1000]`-normalized; result is rounded and clamped to
`[0, max]`. -/
def denormalizeCoord (value : CoordArg) (m : ℤ) : ℤ :=
  match value.toFiniteNumber with
  | none => 0
  | some n =>
    let normalized : ℚ := if 0 ≤ n ∧ n ≤ 1 then n else n / 1000
    max 0 (min m (jsRound (normalized * (m : ℚ))))

/-- The full normalized-to-pixel mapping used for action coordinates in
`executeComputerUseAction`:
`clampToViewportX(offsetX + denormalizeCoord(args.x, denormMaxX))` where
`clampToViewportX(v) = Math.max(0, Math.min(viewportMax, Math.round(v)))`. -/
def mapCoordPixel (value : CoordArg) (offset : ℚ) (denormMax viewportMax : ℤ) : ℤ :=
  max 0 (min viewportMax (jsRound (offset + (denormalizeCoord value denormMax : ℚ))))

/-! ## Frame capture (`LLMClient.ts`, `captureActiveTabPngBase64`,
lines 1476-1545): aspect-ratio crop and resolution cap. -/

/-- `DEFAULT_COMPUTER_USE_SCREEN_WIDTH`. -/
def defaultCuScreenWidth : ℤ := 1440
/-- `DEFAULT_COMPUTER_USE_SCREEN_HEIGHT`. -/
def defaultCuScreenHeight : ℤ := 900

/-- The stored mapping between a captured frame's pixel space and the live
viewport's CSS pixel space (`lastGeminiComputerUseFrameTransform`). -/
structure FrameTransform where
  cropWidthCss : ℚ
  cropHeightCss : ℚ
  offsetXCss : ℚ
  offsetYCss : ℚ
  viewportWidthCss : ℚ
  viewportHeightCss : ℚ
  deriving DecidableEq

/-- Result of the crop/cap pipeline: the cropped bitmap dimensions, the crop
origin handed to `image.crop`, the final (resolution-capped) dimensions, and
the recorded frame transform. -/
structure CuFrameResult where
  croppedWidth : ℤ
  croppedHeight : ℤ
  cropX : ℤ
  cropY : ℤ
  cappedWidth : ℤ
  cappedHeight : ℤ
  transform : FrameTransform
  deriving DecidableEq

/-- The crop / transform / downscale computation of
`captureActiveTabPngBase64` (lines 1476-1545), given the raw screenshot
dimensions and the CSS viewport size.  `targetAspect` is derived from the raw
capture itself and `currentAspect` is set equal to it, so the two crop
branches (which require a strict aspect inequality) are modelled exactly as
written.  Any crop is issued with origin `{x: 0, y: 0}` and the stored
transform records `offsetXCss = offsetYCss = 0`. -/
def computeCuFrame (widthRaw heightRaw : ℤ) (viewportWidthCss viewportHeightCss : ℚ) :
    CuFrameResult :=
  let targetAspect : ℚ :=
    if 0 < widthRaw ∧ 0 < heightRaw then (widthRaw : ℚ) / (heightRaw : ℚ)
    else (defaultCuScreenWidth : ℚ) / (defaultCuScreenHeight : ℚ)
  let currentAspect : ℚ := targetAspect
  let cropped : ℤ × ℤ × ℤ × ℤ :=
    if 0 < widthRaw ∧ 0 < heightRaw then
      if currentAspect > targetAspect then
        let cropWidth := max 1 (jsRound ((heightRaw : ℚ) * targetAspect))
        if cropWidth < widthRaw then (cropWidth, heightRaw, 0, 0)
        else (widthRaw, heightRaw, 0, 0)
      else if currentAspect < targetAspect then
        let cropHeight := max 1 (jsRound ((widthRaw : ℚ) / targetAspect))
        if cropHeight < heightRaw then (widthRaw, cropHeight, 0, 0)
        else (widthRaw, heightRaw, 0, 0)
      else (widthRaw, heightRaw, 0, 0)
    else (widthRaw, heightRaw, 0, 0)
  let width := cropped.1
  let height := cropped.2.1
  let scaleX : ℚ := if 0 < widthRaw then (widthRaw : ℚ) / max 1 viewportWidthCss else 1
  let scaleY : ℚ := if 0 < heightRaw then (heightRaw : ℚ) / max 1 viewportHeightCss else 1
  let cropWidthCss : ℤ := max 1 (jsRound ((width : ℚ) / max (1/10000) scaleX))
  let cropHeightCss : ℤ := max 1 (jsRound ((height : ℚ) / max (1/10000) scaleY))
  let scale : ℚ :=
    min 1 (min ((defaultCuScreenWidth : ℚ) / max 1 (width : ℚ))
               ((defaultCuScreenHeight : ℚ) / max 1 (height : ℚ)))
  let capped : ℤ × ℤ :=
    if scale < 1 then
      (max 1 (jsRound ((width : ℚ) * scale)), max 1 (jsRound ((height : ℚ) * scale)))
    else (width, height)
  { croppedWidth := width
    croppedHeight := height
    cropX := cropped.2.2.1
    cropY := cropped.2.2.2
    cappedWidth := capped.1
    cappedHeight := capped.2
    transform :=
      { cropWidthCss := (cropWidthCss : ℚ)
        cropHeightCss := (cropHeightCss : ℚ)
        offsetXCss := 0
        offsetYCss := 0
        viewportWidthCss := viewportWidthCss
        viewportHeightCss := viewportHeightCss } }

/-! ## Action Executor (`LLMClient.ts`, `executeComputerUseAction`,
lines 1561-1990).  The input-event side effects (pointer/key synthesis,
overlay events, waits) are elided; the structured result of every branch is
modelled, projected onto the fields the spec talks about (`ok`, `error`,
`url`, and the click coordinates).  Environment interactions are explicit
parameters: the tab's current URL, the live viewport size, the stored frame
transform, and the outcome of the perceptual-drift check. -/

/-- The argument record of a proposed action, with coordinate-bearing fields
kept as raw JS values.  For `navigate`, the source also accepts an
object-shaped `url` (`{value}` / `{url}`); the extracted string is modelled
directly. -/
structure CuArgs where
  x : CoordArg
  y : CoordArg
  destination_x : CoordArg
  destination_y : CoordArg
  url : Option String
  href : Option String
  destination : Option String
  text : Option String
  deriving DecidableEq

/-- An all-absent argument record (the model proposed `{}`). -/
def CuArgs.empty : CuArgs :=
  ⟨.absent, .absent, .absent, .absent, none, none, none, none⟩

/-- Ambient state at the time `executeComputerUseAction` runs. -/
structure CuCtx where
  tabUrl : String
  w : ℚ
  h : ℚ
  frame : Option FrameTransform
  driftDetected : Bool
  deriving DecidableEq

/-- A branch's structured response (`{ok, error?, url?, x?, y?, ...}`);
payload fields other than the spec-relevant ones are elided. -/
structure CuResponse where
  ok : Bool
  error : Option String
  url : Option String
  x : Option ℤ
  y : Option ℤ
  deriving DecidableEq

/-- `maxX`/`maxY` selection (lines 1602-1615): prefer the frame-derived crop
size, falling back to the live viewport when they disagree by more than 24
CSS px and more than 8%. -/
def cuSelectMax (fdim live : ℚ) : ℚ :=
  let d := |fdim - live|
  if d ≤ 24 ∨ (0 < live ∧ d / live ≤ 8/100) then fdim else live

/-- The pixel geometry derived at the top of `executeComputerUseAction`
(lines 1596-1630): offsets, denormalization maxima, viewport clamps, and the
four mapped coordinates. -/
def cuGeometry (ctx : CuCtx) (args : CuArgs) :
    ℤ × ℤ × ℤ × ℤ :=
  let offsetX : ℚ := match ctx.frame with | none => 0 | some f => f.offsetXCss
  let offsetY : ℚ := match ctx.frame with | none => 0 | some f => f.offsetYCss
  let maxX : ℚ := match ctx.frame with
    | none => ctx.w
    | some f => cuSelectMax f.cropWidthCss ctx.w
  let maxY : ℚ := match ctx.frame with
    | none => ctx.h
    | some f => cuSelectMax f.cropHeightCss ctx.h
  let viewportMaxX : ℤ := max 0 (⌊ctx.w⌋ - 1)
  let viewportMaxY : ℤ := max 0 (⌊ctx.h⌋ - 1)
  let denormMaxX : ℤ := max 0 (⌊maxX⌋ - 1)
  let denormMaxY : ℤ := max 0 (⌊maxY⌋ - 1)
  (mapCoordPixel args.x offsetX denormMaxX viewportMaxX,
   mapCoordPixel args.y offsetY denormMaxY viewportMaxY,
   mapCoordPixel args.destination_x offsetX denormMaxX viewportMaxX,
   mapCoordPixel args.destination_y offsetY denormMaxY viewportMaxY)

/-- The dispatch of `executeComputerUseAction` (lines 1643-1990), one case
per action name, mirroring the source's `switch`.  The function is total:
every branch, including the `default` one, returns a structured response. -/
def executeComputerUseAction (name : String) (args : CuArgs) (ctx : CuCtx) : CuResponse :=
  let geom := cuGeometry ctx args
  let x := geom.1
  let y := geom.2.1
  -- `destX`/`destY` (geom.2.2) feed only the synthesized pointer events of
  -- `drag_and_drop`, not any branch's structured response.
  if name = "open_web_browser" then
    ⟨true, none, some ctx.tabUrl, none, none⟩
  else if name = "search" then
    ⟨true, none, some "https://www.google.com", none, none⟩
  else if name = "open_page" ∨ name = "open_url" ∨ name = "openurl" then
    let url := ((args.url).orElse fun _ => (args.href).orElse fun _ => args.destination).getD ""
    if url = "" then ⟨false, some "Missing url", some ctx.tabUrl, none, none⟩
    else ⟨true, none, some url, none, none⟩
  else if name = "navigate" then
    let url := (args.url).getD ""
    if url = "" then ⟨false, some "Missing url", some ctx.tabUrl, none, none⟩
    else ⟨true, none, some url, none, none⟩
  else if name = "go_back" then ⟨true, none, some ctx.tabUrl, none, none⟩
  else if name = "go_forward" then ⟨true, none, some ctx.tabUrl, none, none⟩
  else if name = "wait_5_seconds" then ⟨true, none, some ctx.tabUrl, none, none⟩
  else if name = "wait" then ⟨true, none, some ctx.tabUrl, none, none⟩
  else if name = "click_at" ∨ name = "hover_at" then
    if ctx.driftDetected then
      ⟨false, some "Page changed; retry with a fresh screenshot.", some ctx.tabUrl, none, none⟩
    else ⟨true, none, some ctx.tabUrl, some x, some y⟩
  else if name = "type_text_at" then
    ⟨true, none, some ctx.tabUrl, some x, some y⟩
  else if name = "scroll_document" then ⟨true, none, some ctx.tabUrl, none, none⟩
  else if name = "scroll_at" then ⟨true, none, some ctx.tabUrl, none, none⟩
  else if name = "key_combination" then ⟨true, none, some ctx.tabUrl, none, none⟩
  else if name = "drag_and_drop" then
    if ctx.driftDetected then
      ⟨false, some "Page changed; retry with a fresh screenshot.", some ctx.tabUrl, none, none⟩
    else ⟨true, none, some ctx.tabUrl, some x, some y⟩
  else
    ⟨false, some ("Unsupported action " ++ name), none, none, none⟩

/-- The `catch` wrapper at the bottom of `executeComputerUseAction`
(lines 1986-1989): an exception thrown inside a branch is converted into a
structured error response carrying the tab URL. -/
def cuCatchResponse (message : String) (ctx : CuCtx) : CuResponse :=
  ⟨false, some message, some ctx.tabUrl, none, none⟩

/-! ## String helpers (JS semantics, over `List Char`) -/

/-- The ASCII whitespace recognized by `String.prototype.trim` and `\s`
(restricted to the ASCII range, which covers all strings this program
produces). -/
def isJsWhitespace (c : Char) : Bool :=
  c == ' ' || c == '\t' || c == '\n' || c == '\r' || c == '\x0b' || c == '\x0c'

/-- `s.trim()`. -/
def jsTrim (l : List Char) : List Char :=
  ((l.dropWhile isJsWhitespace).reverse.dropWhile isJsWhitespace).reverse

/-- `s.toLowerCase()` (ASCII). -/
def jsLower (l : List Char) : List Char := l.map Char.toLower

/-- `s.replace(/\s+/g, " ")`: every maximal whitespace run becomes a single
space.  `prevWs` records whether the previous character was whitespace. -/
def collapseWsAux : Bool → List Char → List Char
  | _, [] => []
  | prevWs, c :: rest =>
    if isJsWhitespace c then
      (if prevWs then [] else [' ']) ++ collapseWsAux true rest
    else c :: collapseWsAux false rest

def collapseWs (l : List Char) : List Char := collapseWsAux false l

/-- Substring containment, `s.includes(t)`. -/
def containsSub (l sub : List Char) : Bool := (l.tails).any (fun t => sub.isPrefixOf t)

/-! ## Instruction Store (`LLMClient.ts`, `normalizeSiteKey` lines 108-132,
`normalizeInstructionBullets` lines 134-153, `normalizePerSite` lines 155-175,
`mergePerSiteInstructions` lines 177-210).

JS `Record<string, string[]>` objects are modelled as association lists in
key insertion order: assigning to an existing key updates it in place,
assigning a fresh key appends it (standard JS own-property order for
non-index string keys such as hostnames). -/

/-- `out[k]` lookup on the association-list model of a JS object. -/
def lookupRecord {V : Type} (l : List (List Char × V)) (k : List Char) : Option V :=
  (l.find? fun p => decide (p.1 = k)).map Prod.snd

/-- `out[k] = v` on a JS object. -/
def recordSet {V : Type} (l : List (List Char × V)) (k : List Char) (v : V) :
    List (List Char × V) :=
  if l.any (fun p => decide (p.1 = k)) then
    l.map (fun p => if p.1 = k then (k, v) else p)
  else l ++ [(k, v)]

/-- `new URL(input).hostname` for an `http(s)://` URL, modelled for standard
URLs (scheme, optional userinfo, host, optional port/path/query/fragment);
the WHATWG parser is an external platform capability.  An empty extracted
host models the constructor throwing (the source catches and falls back to
the raw input). -/
def urlHostname (input : List Char) : List Char :=
  let afterScheme := (input.dropWhile (fun c => c ≠ ':')).drop 3
  let authority := afterScheme.takeWhile (fun c => c ≠ '/' && c ≠ '?' && c ≠ '#')
  let hostPort :=
    if authority.any (fun c => c == '@') then
      ((authority.reverse.takeWhile (fun c => c ≠ '@'))).reverse
    else authority
  jsLower (hostPort.takeWhile (fun c => c ≠ ':'))

/-- `normalizeSiteKey(raw)`: trim; for `http(s)://` inputs take the URL
hostname (falling back to the raw input if parsing fails); lowercase; strip
any residual `scheme://` prefix; keep only the part before the first `/`;
strip a leading `www.`. -/
def normalizeSiteKey (raw : List Char) : List Char :=
  let input := jsTrim raw
  if input = [] then []
  else
    let lower := jsLower input
    let host₀ :=
      if "http://".toList.isPrefixOf lower ∨ "https://".toList.isPrefixOf lower then
        let h := urlHostname input
        if h = [] then input else h
      else input
    let host₁ := jsLower (jsTrim host₀)
    -- host.replace(/^[a-z]+:\/\//i, "")
    let alpha := host₁.takeWhile (fun c => c.isAlpha)
    let host₂ :=
      if alpha ≠ [] ∧ "://".toList.isPrefixOf (host₁.drop alpha.length) then
        (host₁.drop alpha.length).drop 3
      else host₁
    let host₃ := host₂.takeWhile (fun c => c ≠ '/')
    let host₄ := if "www.".toList.isPrefixOf host₃ then host₃.drop 4 else host₃
    jsTrim host₄

/-- The canonical form used for deduplication:
`s.trim().toLowerCase().replace(/\s+/g, " ")`. -/
def canonicalizeBullet (s : List Char) : List Char := collapseWs (jsLower (jsTrim s))

/-- The dedup pass of `normalizeInstructionBullets`: keep the first bullet of
each canonical key, skipping bullets whose canonical key is empty. -/
def dedupeBulletsAux (seen : List (List Char)) : List (List Char) → List (List Char)
  | [] => []
  | b :: rest =>
    let key := canonicalizeBullet b
    if key = [] then dedupeBulletsAux seen rest
    else if seen.contains key then dedupeBulletsAux seen rest
    else b :: dedupeBulletsAux (key :: seen) rest

/-- `normalizeInstructionBullets(raw, limit)`: trim each bullet, drop empty
ones, strip a leading `-` bullet marker, deduplicate case/whitespace
insensitively, and truncate to `limit`.  (Non-string array entries become
`""` and are filtered; a non-array input yields `[]`.) -/
def normalizeInstructionBullets (raw : List (List Char)) (limit : ℕ) : List (List Char) :=
  let normalized :=
    ((raw.map jsTrim).filter (fun b => b.length > 0)).map fun b =>
      if b.head? = some '-' then
        jsTrim (b.dropWhile (fun c => c == '-' || isJsWhitespace c))
      else b
  (dedupeBulletsAux [] normalized).take limit

/-- One normalize-and-insert step shared by `normalizePerSite` and the two
passes of `mergePerSiteInstructions`: skip entries whose normalized key or
bullet list is empty, otherwise assign. -/
def perSiteInsert (out : List (List Char × List (List Char)))
    (entry : List Char × List (List Char)) : List (List Char × List (List Char)) :=
  let k := normalizeSiteKey entry.1
  if k = [] then out
  else
    let bullets := normalizeInstructionBullets entry.2 12
    if bullets = [] then out
    else recordSet out k bullets

/-- The 30-site cap: `Object.keys(out).slice(0, 30)` keeps the first 30 keys
in insertion order. -/
def capSites (out : List (List Char × List (List Char))) :
    List (List Char × List (List Char)) :=
  if out.length ≤ 30 then out else out.take 30

/-- `normalizePerSite(raw)`. -/
def normalizePerSite (raw : List (List Char × List (List Char))) :
    List (List Char × List (List Char)) :=
  capSites (raw.foldl perSiteInsert [])

/-- `mergePerSiteInstructions(existing, incoming)`: re-normalize and insert
the existing entries, then assign each incoming entry (overwriting the
existing value for the same key), then cap to the first 30 sites. -/
def mergePerSiteInstructions (existing incoming : List (List Char × List (List Char))) :
    List (List Char × List (List Char)) :=
  capSites (incoming.foldl perSiteInsert (existing.foldl perSiteInsert []))

/-! ## Navigation Log Formatter (`shared/navigationPretty.ts`).

`JSON.parse` (a platform builtin) is modelled by a recursive-descent parser
over a `JsonVal` tree; `none` models a parse error (the source catches it and
uses `null`). -/

/-- A parsed JSON value. -/
inductive JsonVal
  | null
  | bool (b : Bool)
  | num (q : ℚ)
  | str (s : List Char)
  | arr (elems : List JsonVal)
  | obj (members : List (List Char × JsonVal))
  deriving Inhabited

/-- JSON insignificant whitespace. -/
def jsonWs (c : Char) : Bool := c == ' ' || c == '\t' || c == '\n' || c == '\r'

def hexDigitVal (c : Char) : ℕ :=
  if c.isDigit then c.toNat - 48
  else if 'a' ≤ c ∧ c ≤ 'f' then c.toNat - 87
  else c.toNat - 55

def digitsVal (ds : List Char) : ℕ := ds.foldl (fun a c => a * 10 + (c.toNat - 48)) 0

def isHexDigitChar (c : Char) : Bool :=
  c.isDigit || ('a' ≤ c && c ≤ 'f') || ('A' ≤ c && c ≤ 'F')

/-- JSON string body after the opening quote: returns the decoded content and
the remainder after the closing quote. -/
def parseJsonStringAux : ℕ → List Char → Option (List Char × List Char)
  | 0, _ => none
  | _, [] => none
  | fuel+1, c :: rest =>
    if c = '"' then some ([], rest)
    else if c = '\\' then
      match rest with
      | [] => none
      | e :: rest2 =>
        let esc : Option (Char × List Char) :=
          if e = '"' then some ('"', rest2)
          else if e = '\\' then some ('\\', rest2)
          else if e = '/' then some ('/', rest2)
          else if e = 'b' then some ('\x08', rest2)
          else if e = 'f' then some ('\x0c', rest2)
          else if e = 'n' then some ('\n', rest2)
          else if e = 'r' then some ('\r', rest2)
          else if e = 't' then some ('\t', rest2)
          else if e = 'u' then
            match rest2 with
            | h1 :: h2 :: h3 :: h4 :: rest3 =>
              if isHexDigitChar h1 && isHexDigitChar h2 && isHexDigitChar h3 &&
                  isHexDigitChar h4 then
                some (Char.ofNat
                  (((hexDigitVal h1 * 16 + hexDigitVal h2) * 16 + hexDigitVal h3) * 16 +
                    hexDigitVal h4), rest3)
              else none
            | _ => none
          else none
        match esc with
        | none => none
        | some (ch, r) => (parseJsonStringAux fuel r).map fun p => (ch :: p.1, p.2)
    else if c.toNat < 32 then none
    else (parseJsonStringAux fuel rest).map fun p => (c :: p.1, p.2)

/-- A JSON number (grammar `-?int(.frac)?([eE][+-]?digits)?`) as a rational. -/
def parseJsonNumber (l : List Char) : Option (ℚ × List Char) :=
  let (neg, l1) := match l with | '-' :: r => (true, r) | _ => (false, l)
  let intDigits := l1.takeWhile Char.isDigit
  let l2 := l1.drop intDigits.length
  if intDigits = [] then none
  else if intDigits.length > 1 ∧ intDigits.head? = some '0' then none
  else
    let fracStep : Option (List Char × List Char) :=
      match l2 with
      | '.' :: r =>
        let ds := r.takeWhile Char.isDigit
        if ds = [] then none else some (ds, r.drop ds.length)
      | _ => some ([], l2)
    match fracStep with
    | none => none
    | some (fracDigits, l3) =>
      let expStep : Option (ℤ × List Char) :=
        match l3 with
        | 'e' :: r | 'E' :: r =>
          let (esign, r1) : ℤ × List Char :=
            match r with
            | '+' :: r' => (1, r')
            | '-' :: r' => (-1, r')
            | _ => (1, r)
          let ds := r1.takeWhile Char.isDigit
          if ds = [] then none else some (esign * (digitsVal ds : ℤ), r1.drop ds.length)
        | _ => some (0, l3)
      match expStep with
      | none => none
      | some (e, l4) =>
        let mantissa : ℚ :=
          (digitsVal intDigits : ℚ) + (digitsVal fracDigits : ℚ) / (10 ^ fracDigits.length : ℚ)
        let v : ℚ := (if neg then -mantissa else mantissa) * (10 : ℚ) ^ e
        some (v, l4)

mutual

/-- One JSON value, consuming leading whitespace.  Fuel bounds the recursion
depth; `jsonParse` supplies more than any input can use. -/
def parseJsonVal : ℕ → List Char → Option (JsonVal × List Char)
  | 0, _ => none
  | fuel+1, l =>
    match l.dropWhile jsonWs with
    | [] => none
    | c :: rest =>
      if c = '{' then
        match (rest.dropWhile jsonWs) with
        | '}' :: r => some (.obj [], r)
        | _ => (parseJsonMembers fuel rest).map fun p => (.obj p.1, p.2)
      else if c = '[' then
        match (rest.dropWhile jsonWs) with
        | ']' :: r => some (.arr [], r)
        | _ => (parseJsonElems fuel rest).map fun p => (.arr p.1, p.2)
      else if c = '"' then
        (parseJsonStringAux (rest.length + 1) rest).map fun p => (.str p.1, p.2)
      else if "true".toList.isPrefixOf (c :: rest) then some (.bool true, (c :: rest).drop 4)
      else if "false".toList.isPrefixOf (c :: rest) then some (.bool false, (c :: rest).drop 5)
      else if "null".toList.isPrefixOf (c :: rest) then some (.null, (c :: rest).drop 4)
      else (parseJsonNumber (c :: rest)).map fun p => (.num p.1, p.2)

/-- `"key": value` members of an object, expecting at least one, up to and
consuming the closing `}`. -/
def parseJsonMembers : ℕ → List Char → Option (List (List Char × JsonVal) × List Char)
  | 0, _ => none
  | fuel+1, l =>
    match l.dropWhile jsonWs with
    | '"' :: rest =>
      match parseJsonStringAux (rest.length + 1) rest with
      | none => none
      | some (key, r1) =>
        match r1.dropWhile jsonWs with
        | ':' :: r2 =>
          match parseJsonVal fuel r2 with
          | none => none
          | some (v, r3) =>
            match r3.dropWhile jsonWs with
            | ',' :: r4 => (parseJsonMembers fuel r4).map fun p => ((key, v) :: p.1, p.2)
            | '}' :: r4 => some ([(key, v)], r4)
            | _ => none
        | _ => none
    | _ => none

/-- Array elements, expecting at least one, up to and consuming `]`. -/
def parseJsonElems : ℕ → List Char → Option (List JsonVal × List Char)
  | 0, _ => none
  | fuel+1, l =>
    match parseJsonVal fuel l with
    | none => none
    | some (v, r1) =>
      match r1.dropWhile jsonWs with
      | ',' :: r2 => (parseJsonElems fuel r2).map fun p => (v :: p.1, p.2)
      | ']' :: r2 => some ([v], r2)
      | _ => none

end

/-- `JSON.parse(s)`: parse one value and require only whitespace after it.
`none` models the `SyntaxError` path (caught by the source). -/
def jsonParse (s : List Char) : Option JsonVal :=
  match parseJsonVal (4 * s.length + 8) s with
  | none => none
  | some (v, rest) => if rest.dropWhile jsonWs = [] then some v else none

/-- Last-wins property lookup on a parsed object (`parsedArgs.key`), defined
only when the value is a string (`typeof parsedArgs.key === "string"`). -/
def jsonGetStr (j : Option JsonVal) (key : String) : Option (List Char) :=
  match j with
  | some (.obj kvs) =>
    match kvs.reverse.find? (fun p => p.1 = key.toList) with
    | some (_, .str s) => some s
    | _ => none
  | _ => none

/-- `parsedArgs.key` when the value is a boolean. -/
def jsonGetBool (j : Option JsonVal) (key : String) : Option Bool :=
  match j with
  | some (.obj kvs) =>
    match kvs.reverse.find? (fun p => p.1 = key.toList) with
    | some (_, .bool b) => some b
    | _ => none
  | _ => none

/-- `getUrlFromArgs(parsedArgs)` (`navigationPretty.ts` lines 13-24): first of
`url`/`href`/`destination` that is a string with non-empty trim. -/
def getUrlFromArgs (j : Option JsonVal) : List Char :=
  let pick (key : String) : Option (List Char) :=
    match jsonGetStr j key with
    | some s => if (jsTrim s).length > 0 then some (jsTrim s) else none
    | none => none
  ((pick "url").orElse fun _ => (pick "href").orElse fun _ => pick "destination").getD []

/-- `prettyFromActionLine(cleaned)` (lines 26-100): split off a JSON argument
part at the first `{`, parse it best-effort, and classify the action part by
keyword into a human-readable summary. -/
def prettyFromActionLine (cleaned : List Char) : List Char :=
  let hasBrace := cleaned.any (fun c => c == '{')
  let actionPart := jsTrim (if hasBrace then cleaned.takeWhile (fun c => c ≠ '{') else cleaned)
  let jsonPart := if hasBrace then jsTrim (cleaned.dropWhile (fun c => c ≠ '{')) else []
  let parsedArgs : Option JsonVal := if jsonPart = [] then none else jsonParse jsonPart
  let lowerAction := jsLower actionPart
  let has (w : String) : Bool := containsSub lowerAction w.toList
  if has "type_text" then
    let text := (jsonGetStr parsedArgs "text").getD []
    let enter := (jsonGetBool parsedArgs "enter").getD false
    let safeText := if text.length > 0 then " “".toList ++ text ++ "”".toList else []
    (if enter then "Submitting".toList else "Typing".toList) ++ safeText
  else if has "search" then "Searching".toList
  else if has "click" then "Clicking element".toList
  else if has "hover" then "Hovering".toList
  else if has "drag" then "Dragging".toList
  else if has "scroll" then "Scrolling".toList
  else if has "navigate" || has "open_page" || has "open_url" || has "openurl" then
    let url := getUrlFromArgs parsedArgs
    if url ≠ [] then "Opening page “".toList ++ url ++ "”".toList else "Opening page".toList
  else if has "go_back" then "Going back".toList
  else if has "go_forward" then "Going forward".toList
  else if has "open_web_browser" then "Opening browser".toList
  else if has "wait" then "Waiting".toList
  else if has "key" || has "keypress" then "Pressing keys".toList
  else "Continuing".toList

/-- JS `\w` (ASCII word character). -/
def isWordChar (c : Char) : Bool := c.isAlphanum || c == '_'

/-- `line.replace(/^Computer Use\s*:\s*/i, "")`: strip the logging tag when
it is present; unchanged otherwise. -/
def stripCuTag (line : List Char) : List Char :=
  if "computer use".toList.isPrefixOf (jsLower line) then
    let rest := (line.drop 12).dropWhile isJsWhitespace
    match rest with
    | ':' :: r => r.dropWhile isJsWhitespace
    | _ => line
  else line

/-- Try `/step\s+(\d+)\s*\/\s*(\d+)\b/i` anchored at the start of `l`. -/
def matchStepAt (l : List Char) : Option (ℕ × ℕ) :=
  if "step".toList.isPrefixOf (jsLower l) then
    let r0 := l.drop 4
    let ws := r0.takeWhile isJsWhitespace
    if ws = [] then none
    else
      let r1 := r0.drop ws.length
      let d1 := r1.takeWhile Char.isDigit
      if d1 = [] then none
      else
        match (r1.drop d1.length).dropWhile isJsWhitespace with
        | '/' :: r3 =>
          let r4 := r3.dropWhile isJsWhitespace
          let d2 := r4.takeWhile Char.isDigit
          if d2 = [] then none
          else if ((r4.drop d2.length).head?).all (fun c => !isWordChar c) then
            some (digitsVal d1, digitsVal d2)
          else none
        | _ => none
  else none

/-- Leftmost match of the `step X/Y` pattern
(`cleaned.match(/\bstep\s+(\d+)\s*\/\s*(\d+)\b/i)`), scanning positions whose
predecessor satisfies the `\b` word boundary. -/
def findStepAux (prev : Option Char) : List Char → Option (ℕ × ℕ)
  | [] => none
  | c :: rest =>
    let boundaryOk := prev.all (fun p => !isWordChar p)
    match (if boundaryOk then matchStepAt (c :: rest) else none) with
    | some st => some st
    | none => findStepAux (some c) rest

def findStepMatch (l : List Char) : Option (ℕ × ℕ) := findStepAux none l

/-- `/\b<word>\b/i.test(l)` for a word made of word characters. -/
def hasWordSubAux (w : List Char) (prev : Option Char) : List Char → Bool
  | [] => false
  | c :: rest =>
    (prev.all (fun p => !isWordChar p) && w.isPrefixOf (jsLower (c :: rest)) &&
      (((c :: rest).drop w.length).head?).all (fun t => !isWordChar t))
    || hasWordSubAux w (some c) rest

def hasWordSub (w : List Char) (l : List Char) : Bool := hasWordSubAux w none l

/-- How one complete line is consumed by the parse loop
(`parseComputerUseNavigationDelta` lines 115-137). -/
inductive LineClass
  | empty
  | stepMarker (cur total : ℕ)
  | doneMarker
  | prettyLine (t : List Char)
  deriving DecidableEq

def classifyNavLine (rawLine : List Char) : LineClass :=
  let line := jsTrim rawLine
  if line = [] then .empty
  else
    let cleaned := jsTrim (stripCuTag line)
    match findStepMatch cleaned with
    | some (cur, total) => .stepMarker cur total
    | none =>
      if hasWordSub "done".toList cleaned && containsSub (jsLower cleaned) "no more actions".toList
      then .doneMarker
      else .prettyLine (prettyFromActionLine cleaned)

/-- `s.split(/\r?\n/)` as (complete lines, trailing partial line): a `\n`
terminates a line, consuming one immediately preceding `\r`.  `acc` holds the
current line reversed. -/
def splitNavAux : List Char → List Char → List (List Char) × List Char
  | [], acc => ([], acc.reverse)
  | c :: rest, acc =>
    if c = '\n' then
      let line := (match acc with | '\r' :: t => t | _ => acc).reverse
      let r := splitNavAux rest []
      (line :: r.1, r.2)
    else splitNavAux rest (c :: acc)

structure NavParseResult where
  nextBuffer : List Char
  prettyLines : List (List Char)
  steps : List (ℕ × ℕ)
  sawDone : Bool
  deriving DecidableEq

/-- `parseComputerUseNavigationDelta(delta, buffer)` (lines 102-140). -/
def parseComputerUseNavigationDelta (delta buffer : List Char) : NavParseResult :=
  let split := splitNavAux (buffer ++ delta) []
  { nextBuffer := split.2
    prettyLines := split.1.filterMap fun l =>
      match classifyNavLine l with | .prettyLine t => some t | _ => none
    steps := split.1.filterMap fun l =>
      match classifyNavLine l with | .stepMarker c t => some (c, t) | _ => none
    sawDone := split.1.any fun l =>
      match classifyNavLine l with | .doneMarker => true | _ => false }

/-! ## Conversation history (`LLMClient.ts`): the Gemini `contents` array.
A part carries at most one payload; the sanitizer and pruner inspect only the
fields below (`text`, `functionCall`/`function_call`, `functionResponse`),
so image payloads are represented by `inlineData : Bool`. -/

structure GFunctionCall where
  name : String
  deriving DecidableEq

structure GFunctionResponse where
  name : String
  deriving DecidableEq

structure GPart where
  text : Option String
  functionCall : Option GFunctionCall
  function_call : Option GFunctionCall
  functionResponse : Option GFunctionResponse
  inlineData : Bool
  deriving DecidableEq

structure GContent where
  role : String
  parts : List GPart
  deriving DecidableEq

def GPart.textOnly (s : String) : GPart := ⟨some s, none, none, none, false⟩
def GPart.fnCall (n : String) : GPart := ⟨none, some ⟨n⟩, none, none, false⟩
def GPart.fnResponse (n : String) : GPart := ⟨none, none, none, some ⟨n⟩, false⟩

/-- `hasFunctionCall` inside `pruneDanglingGeminiFunctionCalls`
(lines 997-1004): some part carries `functionCall` or `function_call`. -/
def hasGFunctionCall (c : GContent) : Bool :=
  c.parts.any fun p => p.functionCall.isSome || p.function_call.isSome

/-- A trailing turn the pruner removes: a `model` turn containing a function
call. -/
def isDanglingModelTurn (c : GContent) : Bool :=
  c.role == "model" && hasGFunctionCall c

/-- `pruneDanglingGeminiFunctionCalls(contents)` (lines 993-1018): pop
trailing `model` turns that contain function calls (modelled as dropping the
longest such suffix). -/
def pruneDanglingGeminiFunctionCalls (contents : List GContent) : List GContent :=
  ((contents.reverse).dropWhile isDanglingModelTurn).reverse

/-- Number of non-empty text parts of a turn (the `textParts` counter of
`assertValidGeminiComputerUseContents`, lines 2905-2918). -/
def textPartCount (c : GContent) : ℕ :=
  (c.parts.filter fun p => p.text.any fun s => s.length > 0).length

/-- Number of `functionResponse` parts of a turn. -/
def functionResponsePartCount (c : GContent) : ℕ :=
  (c.parts.filter fun p => p.functionResponse.isSome).length

/-- A user turn mixing prompt text and tool results — the history invariant
violation `assertValidGeminiComputerUseContents` throws on. -/
def isMixedUserTurn (c : GContent) : Bool :=
  c.role == "user" && decide (0 < textPartCount c) && decide (0 < functionResponsePartCount c)

/-- `assertValidGeminiComputerUseContents` as a predicate: `false` when the
assertion throws.  (In this typed model every turn structurally has a `role`
string and a `parts` array, so only the user-turn invariant can fail.) -/
def validGeminiCuContents (contents : List GContent) : Bool :=
  contents.all fun c => !isMixedUserTurn c

/-- `sanitizeGeminiComputerUseContents(contents)` (lines 2869-2878): return
the history unchanged when the assertion passes, reset to `[]` when it
throws. -/
def sanitizeGeminiComputerUseContents (contents : List GContent) : List GContent :=
  if validGeminiCuContents contents then contents else []

/-! ## Agent Run Controller (`gemini/GeminiComputerUseAgent.ts`, `run`,
lines 22-240, and the step-budget configuration of `geminiComputerUseLoop`,
`LLMClient.ts` lines 2003-2006).

The model is abstracted as `propose : ℕ → List String`, giving for each step
the rendered `"Computer Use: action ..."` lines of the function calls it
returns (so `(propose step).length` is the number of proposed calls).  The
run's observable navigation output is the list of strings delivered to
`onNavigationDelta`. -/

/-- `AI_COMPUTER_USE_MAX_STEPS` handling: an unset variable (or one whose
`Number(...)` coercion is not finite) is `none` and defaults to 15; a finite
numeric value is clamped to `[1, 50]`. -/
def computeMaxSteps : Option ℚ → ℚ
  | none => 15
  | some q => max 1 (min 50 q)

inductive CuOutcome
  | doneNoMoreActions
  | maxStepsReached
  deriving DecidableEq

structure CuRunResult where
  stepsExecuted : ℕ
  outcome : CuOutcome
  emittedNav : List String
  bufferedNav : String
  deriving DecidableEq

/-- `emitNavigation(text)` (lines 65-76): buffer navigation text until the
first action has executed; afterwards flush the buffer (if any) and forward
the text. -/
def emitNavStep (hasAnyAction : Bool) (buffered : String) (emitted : List String)
    (text : String) : String × List String :=
  if text = "" then (buffered, emitted)
  else if hasAnyAction = false then (buffered ++ text, emitted)
  else if buffered ≠ "" then ("", emitted ++ [buffered, text])
  else (buffered, emitted ++ [text])

/-- The `for (let step = 0; step < maxSteps; step++)` loop of `run`
(lines 78-240).  Each iteration emits the step marker, asks the model, and
either finishes with the done marker (zero proposed calls) or executes the
calls (flushing the navigation buffer on the first action, then emitting one
action line per call) and continues; falling out of the loop emits the
max-steps marker. -/
def cuRunGo (propose : ℕ → List String) (maxSteps : ℕ) (step : ℕ) (hasAnyAction : Bool)
    (buffered : String) (emitted : List String) : CuRunResult :=
  if h : step < maxSteps then
    let e1 := emitNavStep hasAnyAction buffered emitted
      ("Computer Use: step " ++ toString (step + 1) ++ "/" ++ toString maxSteps ++ "...\n")
    let calls := propose step
    if calls.length = 0 then
      let e2 := emitNavStep hasAnyAction e1.1 e1.2 "Computer Use: done (no more actions).\n"
      ⟨step + 1, .doneNoMoreActions, e2.2, e2.1⟩
    else
      let flushed : String × List String :=
        if hasAnyAction = false ∧ e1.1 ≠ "" then ("", e1.2 ++ [e1.1]) else (e1.1, e1.2)
      let e3 := calls.foldl (fun acc line => emitNavStep true acc.1 acc.2 line) flushed
      cuRunGo propose maxSteps (step + 1) true e3.1 e3.2
  else
    let e := emitNavStep hasAnyAction buffered emitted
      "Computer Use: stopped (max steps reached).\n"
    ⟨step, .maxStepsReached, e.2, e.1⟩
termination_by maxSteps - step
decreasing_by omega

/-- `agent.run` with an integer step budget. -/
def geminiAgentRun (propose : ℕ → List String) (maxSteps : ℕ) : CuRunResult :=
  cuRunGo propose maxSteps 0 false "" []

/-! # Theorems -/

theorem denormalizeCoord_num_eq (n : ℚ) (m : ℤ) :
    denormalizeCoord (.num n) m =
      max 0 (min m (jsRound ((if 0 ≤ n ∧ n ≤ 1 then n else n / 1000) * (m : ℚ)))) := rfl

theorem denormalizeCoord_mono_low {n₁ n₂ : ℚ} {m : ℤ} (hm : 0 ≤ m)
    (h0 : 0 ≤ n₁) (h12 : n₁ ≤ n₂) (h1 : n₂ ≤ 1) :
    denormalizeCoord (.num n₁) m ≤ denormalizeCoord (.num n₂) m := by
  rw [denormalizeCoord_num_eq, denormalizeCoord_num_eq,
    if_pos ⟨h0, h12.trans h1⟩, if_pos ⟨h0.trans h12, h1⟩]
  exact max_le_max le_rfl (min_le_min le_rfl (jsRound_mono
    (mul_le_mul_of_nonneg_right h12 (by exact_mod_cast hm))))

theorem denormalizeCoord_mono_high {n₁ n₂ : ℚ} {m : ℤ} (hm : 0 ≤ m)
    (h1 : 1 < n₁) (h12 : n₁ ≤ n₂) :
    denormalizeCoord (.num n₁) m ≤ denormalizeCoord (.num n₂) m := by
  rw [denormalizeCoord_num_eq, denormalizeCoord_num_eq,
    if_neg (by intro h; linarith [h.2]), if_neg (by intro h; linarith [h.2])]
  refine max_le_max le_rfl (min_le_min le_rfl (jsRound_mono
    (mul_le_mul_of_nonneg_right ?_ (by exact_mod_cast hm))))
  linarith

theorem mapCoordPixel_mono_of_denorm_le {v₁ v₂ : CoordArg} {offset : ℚ}
    {m vm : ℤ} (h : denormalizeCoord v₁ m ≤ denormalizeCoord v₂ m) :
    mapCoordPixel v₁ offset m vm ≤ mapCoordPixel v₂ offset m vm := by
  unfold mapCoordPixel
  exact max_le_max le_rfl (min_le_min le_rfl (jsRound_mono
    (by have : (denormalizeCoord v₁ m : ℚ) ≤ (denormalizeCoord v₂ m : ℚ) := by
          exact_mod_cast h
        linarith)))

/-- C1 (amended): the normalized-to-pixel mapping (denormalizeCoord followed
by offset addition and clamping) is monotonically non-decreasing within each
normalization convention — over `[0,1]`, and over `(1,1000]` — and its output
always lies in `[0, D-1]` for every viewport dimension `D ≥ 1`.  It is *not*
monotone across the convention boundary (see the counterexample): an input of
exactly 1 is treated as fraction 1.0 while inputs just above 1 are treated as
thousandths. -/
theorem coordinate_map_piecewise_monotone_and_bounded :
    (∀ (offset : ℚ) (denormMax viewportMax : ℤ) (n₁ n₂ : ℚ),
      0 ≤ denormMax → 0 ≤ n₁ → n₁ ≤ n₂ → n₂ ≤ 1 →
      mapCoordPixel (.num n₁) offset denormMax viewportMax ≤
        mapCoordPixel (.num n₂) offset denormMax viewportMax) ∧
    (∀ (offset : ℚ) (denormMax viewportMax : ℤ) (n₁ n₂ : ℚ),
      0 ≤ denormMax → 1 < n₁ → n₁ ≤ n₂ → n₂ ≤ 1000 →
      mapCoordPixel (.num n₁) offset denormMax viewportMax ≤
        mapCoordPixel (.num n₂) offset denormMax viewportMax) ∧
    (∀ (value : CoordArg) (offset : ℚ) (denormMax D : ℤ), 1 ≤ D →
      0 ≤ mapCoordPixel value offset denormMax (D - 1) ∧
      mapCoordPixel value offset denormMax (D - 1) ≤ D - 1) := by
  refine ⟨?_, ?_, ?_⟩
  · intro offset dm vm n₁ n₂ hdm h0 h12 h1
    exact mapCoordPixel_mono_of_denorm_le (denormalizeCoord_mono_low hdm h0 h12 h1)
  · intro offset dm vm n₁ n₂ hdm h1 h12 _
    exact mapCoordPixel_mono_of_denorm_le (denormalizeCoord_mono_high hdm h1 h12)
  · intro v offset dm D hD
    unfold mapCoordPixel
    exact ⟨le_max_left _ _, max_le (by omega) (min_le_left _ _)⟩

/-- Witness for `coordinate_map_piecewise_monotone_and_bounded` at concrete
inputs. -/
theorem coordinate_map_piecewise_monotone_and_bounded_witness :
    (mapCoordPixel (.num (1/2)) 0 99 99 ≤ mapCoordPixel (.num 1) 0 99 99) ∧
    (mapCoordPixel (.num 500) 0 99 99 ≤ mapCoordPixel (.num 750) 0 99 99) ∧
    (0 ≤ mapCoordPixel .absent 0 99 (100 - 1) ∧
      mapCoordPixel .absent 0 99 (100 - 1) ≤ 100 - 1) :=
  ⟨coordinate_map_piecewise_monotone_and_bounded.1 0 99 99 (1/2) 1
      (by norm_num) (by norm_num) (by norm_num) (by norm_num),
   coordinate_map_piecewise_monotone_and_bounded.2.1 0 99 99 500 750
      (by norm_num) (by norm_num) (by norm_num) (by norm_num),
   coordinate_map_piecewise_monotone_and_bounded.2.2 .absent 0 99 100 (by norm_num)⟩

/-- C1 counterexample: over the `[0,1000]` range the mapping is not
monotone.  With a 100-pixel viewport (clamp bound 99) and the identity frame
transform (offset 0), input 1 maps to pixel 99 but input 2 maps to pixel 0. -/
theorem coordinate_map_not_monotone_on_thousand_range :
    ¬ (∀ n₁ n₂ : ℚ, 0 ≤ n₁ → n₁ ≤ n₂ → n₂ ≤ 1000 →
        mapCoordPixel (.num n₁) 0 99 99 ≤ mapCoordPixel (.num n₂) 0 99 99) := by
  intro hmono
  have h := hmono 1 2 (by norm_num) (by norm_num) (by norm_num)
  have e1 : mapCoordPixel (.num 1) 0 99 99 = 99 := by
    norm_num [mapCoordPixel, denormalizeCoord, jsRound, CoordArg.toFiniteNumber]
  have e2 : mapCoordPixel (.num 2) 0 99 99 = 0 := by
    norm_num [mapCoordPixel, denormalizeCoord, jsRound, CoordArg.toFiniteNumber]
  rw [e1, e2] at h
  exact absurd h (by norm_num)

theorem emitNavStep_marker_mem (buffered : String) (emitted : List String)
    {text : String} (h : text ≠ "") :
    text ∈ (emitNavStep true buffered emitted text).2 := by
  unfold emitNavStep
  rw [if_neg h]
  by_cases hb : buffered ≠ ""
  · rw [if_neg (by simp), if_pos hb]
    simp
  · rw [if_neg (by simp), if_neg hb]
    simp

theorem cuRunGo_active_exhausts (propose : ℕ → List String) (N : ℕ) :
    ∀ (d step : ℕ) (buffered : String) (emitted : List String),
      N - step = d → step ≤ N →
      (∀ s, step ≤ s → s < N → (propose s).length ≠ 0) →
      (cuRunGo propose N step true buffered emitted).stepsExecuted = N ∧
      (cuRunGo propose N step true buffered emitted).outcome = .maxStepsReached ∧
      "Computer Use: stopped (max steps reached).\n" ∈
        (cuRunGo propose N step true buffered emitted).emittedNav := by
  intro d
  induction d with
  | zero =>
    intro step buffered emitted hd hle _
    have hnlt : ¬ step < N := by omega
    rw [cuRunGo, dif_neg hnlt]
    exact ⟨show step = N by omega, rfl, emitNavStep_marker_mem _ _ (by simp)⟩
  | succ d ih =>
    intro step buffered emitted hd hle hcalls
    have hlt : step < N := by omega
    have hc : ¬ (propose step).length = 0 := hcalls step le_rfl hlt
    rw [cuRunGo, dif_pos hlt, if_neg hc]
    exact ih (step + 1) _ _ (by omega) (by omega)
      (fun s hs1 hs2 => hcalls s (by omega) hs2)

/-- C2: with the step budget read from configuration (default 15 when unset,
clamped to `[1, 50]`), a run in which the model proposes at least one tool
call at every step executes exactly `N` loop iterations, then emits the
`"stopped (max steps reached)"` marker and terminates; it never runs an
`(N+1)`-th step. -/
theorem run_loop_exhausts_exact_step_budget :
    (computeMaxSteps none = 15) ∧
    (∀ q : ℚ, 1 ≤ computeMaxSteps (some q) ∧ computeMaxSteps (some q) ≤ 50) ∧
    (∀ (propose : ℕ → List String) (N : ℕ), 1 ≤ N →
      (∀ s, s < N → (propose s).length ≠ 0) →
      (geminiAgentRun propose N).stepsExecuted = N ∧
      (geminiAgentRun propose N).outcome = .maxStepsReached ∧
      "Computer Use: stopped (max steps reached).\n" ∈
        (geminiAgentRun propose N).emittedNav) := by
  refine ⟨rfl, ?_, ?_⟩
  · intro q
    constructor
    · exact le_max_left _ _
    · exact max_le (by norm_num) (min_le_left _ _)
  · intro propose N hN hcalls
    have h0 : (0 : ℕ) < N := hN
    have hc : ¬ (propose 0).length = 0 := hcalls 0 h0
    unfold geminiAgentRun
    rw [cuRunGo, dif_pos h0, if_neg hc]
    exact cuRunGo_active_exhausts propose N (N - 1) 1 _ _ (by omega) (by omega)
      (fun s _ hs2 => hcalls s hs2)

/-- Witness for `run_loop_exhausts_exact_step_budget`: a model that always
proposes one `click_at` call against a budget of 3 steps. -/
theorem run_loop_exhausts_exact_step_budget_witness :
    (1 ≤ computeMaxSteps (some 99) ∧ computeMaxSteps (some 99) ≤ 50) ∧
    ((geminiAgentRun (fun _ => ["Computer Use: action click_at {}\n"]) 3).stepsExecuted = 3 ∧
      (geminiAgentRun (fun _ => ["Computer Use: action click_at {}\n"]) 3).outcome =
        .maxStepsReached ∧
      "Computer Use: stopped (max steps reached).\n" ∈
        (geminiAgentRun (fun _ => ["Computer Use: action click_at {}\n"]) 3).emittedNav) :=
  ⟨run_loop_exhausts_exact_step_budget.2.1 99,
   run_loop_exhausts_exact_step_budget.2.2 (fun _ => ["Computer Use: action click_at {}\n"]) 3
      (by norm_num) (fun s _ => by simp)⟩

/-! ### Instruction-store lemmas -/

theorem find_map_update {V : Type} (l : List (List Char × V)) (k : List Char) (v : V)
    (h : ∃ p ∈ l, p.1 = k) :
    (l.map fun p => if p.1 = k then (k, v) else p).find? (fun p => decide (p.1 = k)) =
      some (k, v) := by
  induction l with
  | nil =>
    obtain ⟨q, hq, _⟩ := h
    exact absurd hq (List.not_mem_nil q)
  | cons p t ih =>
    by_cases hp : p.1 = k
    · rw [List.map_cons, if_pos hp, List.find?_cons_of_pos _ (by simp)]
    · rcases h with ⟨q, hq, hqk⟩
      rcases List.mem_cons.mp hq with rfl | hqt
      · exact absurd hqk hp
      · rw [List.map_cons, if_neg hp, List.find?_cons_of_neg _ (by simp [hp])]
        exact ih ⟨q, hqt, hqk⟩

theorem recordSet_find {V : Type} (l : List (List Char × V)) (k : List Char) (v : V)
    (h : ∃ p ∈ l, p.1 = k) :
    (recordSet l k v).find? (fun p => decide (p.1 = k)) = some (k, v) := by
  have hany : l.any (fun p => decide (p.1 = k)) = true := by
    rcases h with ⟨q, hq, hqk⟩
    exact List.any_eq_true.mpr ⟨q, hq, by simp [hqk]⟩
  rw [recordSet, if_pos hany]
  exact find_map_update l k v h

theorem recordSet_length_of_mem {V : Type} (l : List (List Char × V)) (k : List Char) (v : V)
    (h : ∃ p ∈ l, p.1 = k) : (recordSet l k v).length = l.length := by
  have hany : l.any (fun p => decide (p.1 = k)) = true := by
    rcases h with ⟨q, hq, hqk⟩
    exact List.any_eq_true.mpr ⟨q, hq, by simp [hqk]⟩
  rw [recordSet, if_pos hany, List.length_map]

theorem capSites_of_le {l : List (List Char × List (List Char))} (h : l.length ≤ 30) :
    capSites l = l := if_pos h

theorem capSites_front_retained (l : List (List Char × List (List Char))) :
    (capSites l).IsPrefix l := by
  unfold capSites
  split
  · exact List.prefix_rfl
  · exact List.take_prefix 30 l

theorem capSites_length_le (l : List (List Char × List (List Char))) :
    (capSites l).length ≤ 30 := by
  unfold capSites
  split
  · assumption
  · simp [List.length_take_le]

theorem normalizeInstructionBullets_length_le (raw : List (List Char)) (limit : ℕ) :
    (normalizeInstructionBullets raw limit).length ≤ limit := by
  unfold normalizeInstructionBullets
  simp [List.length_take_le]

theorem perSiteInsert_preserves_value_bound (out : List (List Char × List (List Char)))
    (e : List Char × List (List Char)) (h : ∀ p ∈ out, p.2.length ≤ 12) :
    ∀ p ∈ perSiteInsert out e, p.2.length ≤ 12 := by
  simp only [perSiteInsert]
  by_cases h1 : normalizeSiteKey e.1 = []
  · rw [if_pos h1]; exact h
  · rw [if_neg h1]
    by_cases h2 : normalizeInstructionBullets e.2 12 = []
    · rw [if_pos h2]; exact h
    · rw [if_neg h2]
      intro p hp
      unfold recordSet at hp
      split at hp
      · rcases List.mem_map.mp hp with ⟨q, hq, rfl⟩
        split
        · exact normalizeInstructionBullets_length_le e.2 12
        · exact h q hq
      · rcases List.mem_append.mp hp with hq | hq
        · exact h p hq
        · rcases List.mem_singleton.mp hq with rfl
          exact normalizeInstructionBullets_length_le e.2 12

theorem foldl_perSiteInsert_value_bound (raw : List (List Char × List (List Char))) :
    ∀ out, (∀ p ∈ out, p.2.length ≤ 12) →
      ∀ p ∈ raw.foldl perSiteInsert out, p.2.length ≤ 12 := by
  induction raw with
  | nil => intro out h; simpa using h
  | cons e t ih =>
    intro out h
    simpa using ih (perSiteInsert out e) (perSiteInsert_preserves_value_bound out e h)

/-- C3 (amended): the per-site merge is additive on *site keys* but
last-writer-wins on each key's bullet list: an incoming entry replaces the
stored bullets for its (normalized) key entirely — it is not unioned with
them.  For current rules `["A","B"]` and learner output `["B","C"]` on the
same key, the stored result is `["B","C"]`.  (Additive per-bullet merging is
delegated to the learner model via its prompt, not performed by this code.) -/
theorem mergePerSiteInstructions_last_writer_wins :
    (mergePerSiteInstructions [("example.com".toList, ["A".toList, "B".toList])]
        [("example.com".toList, ["B".toList, "C".toList])] =
      [("example.com".toList, ["B".toList, "C".toList])]) ∧
    (∀ (existing : List (List Char × List (List Char))) (k : List Char)
        (bs : List (List Char)),
      normalizeSiteKey k ≠ [] → normalizeInstructionBullets bs 12 ≠ [] →
      (existing.foldl perSiteInsert []).length ≤ 30 →
      (∃ v, (normalizeSiteKey k, v) ∈ existing.foldl perSiteInsert []) →
      lookupRecord (mergePerSiteInstructions existing [(k, bs)]) (normalizeSiteKey k) =
        some (normalizeInstructionBullets bs 12)) := by
  constructor
  · decide
  · intro existing k bs hk hbs hlen hex
    obtain ⟨v, hv⟩ := hex
    have hbase : mergePerSiteInstructions existing [(k, bs)] =
        capSites (recordSet (existing.foldl perSiteInsert []) (normalizeSiteKey k)
          (normalizeInstructionBullets bs 12)) := by
      unfold mergePerSiteInstructions
      simp only [List.foldl, perSiteInsert]
      rw [if_neg hk, if_neg hbs]
    rw [hbase, capSites_of_le (by
      rw [recordSet_length_of_mem _ _ _ ⟨(normalizeSiteKey k, v), hv, rfl⟩]
      exact hlen)]
    unfold lookupRecord
    rw [recordSet_find _ _ _ ⟨(normalizeSiteKey k, v), hv, rfl⟩]
    rfl

/-- Witness for `mergePerSiteInstructions_last_writer_wins` at the concrete
`["A","B"]` / `["B","C"]` example. -/
theorem mergePerSiteInstructions_last_writer_wins_witness :
    lookupRecord (mergePerSiteInstructions
        [("example.com".toList, ["A".toList, "B".toList])]
        [("example.com".toList, ["B".toList, "C".toList])]) ("example.com".toList) =
      some ["B".toList, "C".toList] := by
  have h := mergePerSiteInstructions_last_writer_wins.2
    [("example.com".toList, ["A".toList, "B".toList])] ("example.com".toList)
    ["B".toList, "C".toList] (by decide) (by decide) (by decide)
    ⟨["A".toList, "B".toList], by decide⟩
  have hk : normalizeSiteKey "example.com".toList = "example.com".toList := by decide
  have hb : normalizeInstructionBullets ["B".toList, "C".toList] 12 =
      ["B".toList, "C".toList] := by decide
  rw [hk, hb] at h
  exact h

/-- C3 counterexample: merging current rules `["A","B"]` with learner output
`["B","C"]` for the same site key does *not* produce `["A","B","C"]` — the
incoming list replaces the stored one. -/
theorem mergePerSiteInstructions_not_additive :
    mergePerSiteInstructions [("example.com".toList, ["A".toList, "B".toList])]
        [("example.com".toList, ["B".toList, "C".toList])] ≠
      [("example.com".toList, ["A".toList, "B".toList, "C".toList])] := by decide

/-- C5 (amended): after every merge/normalization the per-site map holds at
most 12 rules per site and at most 30 sites; but when more than 30 sites are
present it is the *first-inserted (oldest)* 30 keys that are retained — the
result is a prefix of the uncapped insertion-ordered map — so the most
recently added sites are the ones evicted, not the oldest. -/
theorem perSite_caps_hold_but_newest_evicted :
    (∀ (existing incoming : List (List Char × List (List Char))),
      ∀ p ∈ mergePerSiteInstructions existing incoming, p.2.length ≤ 12) ∧
    (∀ (existing incoming : List (List Char × List (List Char))),
      (mergePerSiteInstructions existing incoming).length ≤ 30) ∧
    (∀ raw : List (List Char × List (List Char)),
      ∀ p ∈ normalizePerSite raw, p.2.length ≤ 12) ∧
    (∀ raw : List (List Char × List (List Char)), (normalizePerSite raw).length ≤ 30) ∧
    (∀ (existing incoming : List (List Char × List (List Char))),
      (mergePerSiteInstructions existing incoming).IsPrefix
        (incoming.foldl perSiteInsert (existing.foldl perSiteInsert []))) := by
  refine ⟨?_, ?_, ?_, ?_, ?_⟩
  · intro existing incoming p hp
    have hp' : p ∈ incoming.foldl perSiteInsert (existing.foldl perSiteInsert []) :=
      (capSites_front_retained _).subset hp
    exact foldl_perSiteInsert_value_bound incoming _
      (foldl_perSiteInsert_value_bound existing [] (by intro q hq; simp at hq)) p hp'
  · intro existing incoming
    exact capSites_length_le _
  · intro raw p hp
    have hp' : p ∈ raw.foldl perSiteInsert [] := (capSites_front_retained _).subset hp
    exact foldl_perSiteInsert_value_bound raw [] (by intro q hq; simp at hq) p hp'
  · intro raw
    exact capSites_length_le _
  · intro existing incoming
    exact capSites_front_retained _

/-- Witness for `perSite_caps_hold_but_newest_evicted` at the concrete merge
example. -/
theorem perSite_caps_hold_but_newest_evicted_witness :
    ["B".toList, "C".toList].length ≤ 12 ∧
    (mergePerSiteInstructions [("example.com".toList, ["A".toList, "B".toList])]
      [("example.com".toList, ["B".toList, "C".toList])]).length ≤ 30 :=
  ⟨perSite_caps_hold_but_newest_evicted.1
      [("example.com".toList, ["A".toList, "B".toList])]
      [("example.com".toList, ["B".toList, "C".toList])]
      ("example.com".toList, ["B".toList, "C".toList]) (by decide),
   perSite_caps_hold_but_newest_evicted.2.1
      [("example.com".toList, ["A".toList, "B".toList])]
      [("example.com".toList, ["B".toList, "C".toList])]⟩

set_option maxRecDepth 100000

/-- C5 counterexample: with 30 stored sites, merging in one new site evicts
the *new* site (the oldest 30 are retained), contradicting "the most recently
added sites are the ones retained". -/
theorem perSite_cap_drops_most_recent_site :
    "new.com".toList ∉ (mergePerSiteInstructions
        ((List.range 30).map fun i => (("s" ++ toString i ++ ".com").toList, ["R".toList]))
        [("new.com".toList, ["X".toList])]).map Prod.fst := by decide

theorem jsRound_le_int {q : ℚ} {n : ℤ} (h : q ≤ n) : jsRound q ≤ n := by
  have he : jsRound (n : ℚ) = n := by
    unfold jsRound
    rw [Int.floor_eq_iff]
    constructor
    · linarith
    · linarith
  calc jsRound q ≤ jsRound (n : ℚ) := jsRound_mono h
    _ = n := he

/-- C4 (amended): `captureActiveTabPngBase64` performs no aspect-ratio crop
at all — the target aspect is computed from the raw capture itself, so the
two crop branches never fire and the bitmap keeps its raw dimensions — and
any crop it did issue would be anchored at the top-left (`{x:0, y:0}`, with
`offsetXCss = offsetYCss = 0` recorded in the Frame Transform), not centered.
The image *is* downscaled to the `≤ 1440×900` resolution cap. -/
theorem captureFrame_no_crop_topleft_anchor_and_resolution_cap :
    (∀ (w h : ℤ) (vw vh : ℚ),
      (computeCuFrame w h vw vh).croppedWidth = w ∧
      (computeCuFrame w h vw vh).croppedHeight = h ∧
      (computeCuFrame w h vw vh).cropX = 0 ∧
      (computeCuFrame w h vw vh).cropY = 0 ∧
      (computeCuFrame w h vw vh).transform.offsetXCss = 0 ∧
      (computeCuFrame w h vw vh).transform.offsetYCss = 0) ∧
    (∀ (w h : ℤ) (vw vh : ℚ), 1 ≤ w → 1 ≤ h →
      (computeCuFrame w h vw vh).cappedWidth ≤ 1440 ∧
      (computeCuFrame w h vw vh).cappedHeight ≤ 900) := by
  constructor
  · intro w h vw vh
    unfold computeCuFrame
    simp [lt_irrefl]
  · intro w h vw vh hw hh
    have hwq : (1 : ℚ) ≤ (w : ℚ) := by exact_mod_cast hw
    have hhq : (1 : ℚ) ≤ (h : ℚ) := by exact_mod_cast hh
    have hmaxw : max 1 ((w : ℚ)) = (w : ℚ) := max_eq_right hwq
    have hmaxh : max 1 ((h : ℚ)) = (h : ℚ) := max_eq_right hhq
    unfold computeCuFrame
    simp only [lt_irrefl, if_false, ite_self]
    set scale : ℚ := min 1 (min ((defaultCuScreenWidth : ℚ) / max 1 (w : ℚ))
      ((defaultCuScreenHeight : ℚ) / max 1 (h : ℚ))) with hscale
    by_cases hs : scale < 1
    · rw [if_pos hs]
      constructor
      · refine max_le (by norm_num) (jsRound_le_int ?_)
        have h1 : scale ≤ (defaultCuScreenWidth : ℚ) / (w : ℚ) := by
          rw [hscale, hmaxw]
          exact le_trans (min_le_right _ _) (min_le_left _ _)
        have h2 : (w : ℚ) * scale ≤ (w : ℚ) * ((defaultCuScreenWidth : ℚ) / (w : ℚ)) :=
          mul_le_mul_of_nonneg_left h1 (by linarith)
        have h3 : (w : ℚ) * ((defaultCuScreenWidth : ℚ) / (w : ℚ)) =
            (defaultCuScreenWidth : ℚ) := by
          field_simp
        rw [h3] at h2
        simpa [defaultCuScreenWidth] using h2
      · refine max_le (by norm_num) (jsRound_le_int ?_)
        have h1 : scale ≤ (defaultCuScreenHeight : ℚ) / (h : ℚ) := by
          rw [hscale, hmaxh]
          exact le_trans (min_le_right _ _) (min_le_right _ _)
        have h2 : (h : ℚ) * scale ≤ (h : ℚ) * ((defaultCuScreenHeight : ℚ) / (h : ℚ)) :=
          mul_le_mul_of_nonneg_left h1 (by linarith)
        have h3 : (h : ℚ) * ((defaultCuScreenHeight : ℚ) / (h : ℚ)) =
            (defaultCuScreenHeight : ℚ) := by
          field_simp
        rw [h3] at h2
        simpa [defaultCuScreenHeight] using h2
    · rw [if_neg hs]
      push_neg at hs
      constructor
      · have h1 : (1 : ℚ) ≤ (defaultCuScreenWidth : ℚ) / (w : ℚ) := by
          calc (1 : ℚ) ≤ scale := hs
            _ ≤ _ := by rw [hscale, hmaxw]; exact le_trans (min_le_right _ _) (min_le_left _ _)
        have h2 : (w : ℚ) ≤ (defaultCuScreenWidth : ℚ) := by
          rw [le_div_iff₀ (by linarith : (0:ℚ) < (w:ℚ))] at h1
          linarith
        exact_mod_cast h2
      · have h1 : (1 : ℚ) ≤ (defaultCuScreenHeight : ℚ) / (h : ℚ) := by
          calc (1 : ℚ) ≤ scale := hs
            _ ≤ _ := by rw [hscale, hmaxh]; exact le_trans (min_le_right _ _) (min_le_right _ _)
        have h2 : (h : ℚ) ≤ (defaultCuScreenHeight : ℚ) := by
          rw [le_div_iff₀ (by linarith : (0:ℚ) < (h:ℚ))] at h1
          linarith
        exact_mod_cast h2

/-- Witness for `captureFrame_no_crop_topleft_anchor_and_resolution_cap` at a
2000×500 raw capture. -/
theorem captureFrame_no_crop_witness :
    ((computeCuFrame 2000 500 2000 500).croppedWidth = 2000 ∧
      (computeCuFrame 2000 500 2000 500).croppedHeight = 500 ∧
      (computeCuFrame 2000 500 2000 500).cropX = 0 ∧
      (computeCuFrame 2000 500 2000 500).cropY = 0 ∧
      (computeCuFrame 2000 500 2000 500).transform.offsetXCss = 0 ∧
      (computeCuFrame 2000 500 2000 500).transform.offsetYCss = 0) ∧
    ((computeCuFrame 2000 500 2000 500).cappedWidth ≤ 1440 ∧
      (computeCuFrame 2000 500 2000 500).cappedHeight ≤ 900) :=
  ⟨captureFrame_no_crop_topleft_anchor_and_resolution_cap.1 2000 500 2000 500,
   captureFrame_no_crop_topleft_anchor_and_resolution_cap.2 2000 500 2000 500
     (by norm_num) (by norm_num)⟩

/-- C4 counterexample: a 2000×500 capture (aspect 4:1, far wider than the
1440:900 default) is not cropped at all — the "cropped" bitmap keeps the full
2000-pixel width instead of being trimmed to a fixed target aspect, and the
crop origin the code would use is the top-left corner, not a centered trim. -/
theorem captureFrame_counterexample_no_fixed_aspect_crop :
    (computeCuFrame 2000 500 2000 500).croppedWidth = 2000 ∧
    (computeCuFrame 2000 500 2000 500).cropX = 0 ∧
    (2000 : ℚ) / 500 ≠ (defaultCuScreenWidth : ℚ) / (defaultCuScreenHeight : ℚ) := by
  refine ⟨?_, ?_, by norm_num [defaultCuScreenWidth, defaultCuScreenHeight]⟩
  · unfold computeCuFrame
    norm_num
  · unfold computeCuFrame
    norm_num

/-! ### Navigation-formatter lemmas -/

theorem splitNavAux_nil (acc : List Char) : splitNavAux [] acc = ([], acc.reverse) := rfl

theorem splitNavAux_cons_nl (rest acc : List Char) :
    splitNavAux ('\n' :: rest) acc =
      ((match acc with | '\x0d' :: t => t | _ => acc).reverse :: (splitNavAux rest []).1,
       (splitNavAux rest []).2) := by
  simp [splitNavAux]

theorem splitNavAux_cons_other (c : Char) (rest acc : List Char) (hc : c ≠ '\n') :
    splitNavAux (c :: rest) acc = splitNavAux rest (c :: acc) := by
  simp [splitNavAux, hc]

theorem splitNavAux_append (x : List Char) :
    ∀ (acc y : List Char),
      splitNavAux (x ++ y) acc =
        ((splitNavAux x acc).1 ++ (splitNavAux y (splitNavAux x acc).2.reverse).1,
         (splitNavAux y (splitNavAux x acc).2.reverse).2) := by
  induction x with
  | nil =>
    intro acc y
    simp [splitNavAux_nil]
  | cons c rest ih =>
    intro acc y
    by_cases hc : c = '\n'
    · subst hc
      rw [List.cons_append, splitNavAux_cons_nl, splitNavAux_cons_nl, ih [] y]
      simp
    · rw [List.cons_append, splitNavAux_cons_other c _ _ hc, splitNavAux_cons_other c _ _ hc,
        ih (c :: acc) y]

theorem splitNavAux_buffer_no_newline (l : List Char) :
    ∀ acc, (∀ c ∈ acc, c ≠ '\n') → ∀ c ∈ (splitNavAux l acc).2, c ≠ '\n' := by
  induction l with
  | nil =>
    intro acc h c hc
    rw [splitNavAux_nil] at hc
    exact h c (List.mem_reverse.mp hc)
  | cons a rest ih =>
    intro acc h c hc
    by_cases ha : a = '\n'
    · subst ha
      rw [splitNavAux_cons_nl] at hc
      exact ih [] (by intro d hd; simp at hd) c hc
    · rw [splitNavAux_cons_other a _ _ ha] at hc
      refine ih (a :: acc) ?_ c hc
      intro d hd
      rcases List.mem_cons.mp hd with rfl | hd'
      · exact ha
      · exact h d hd'

theorem splitNavAux_skip_no_newline (p : List Char) :
    ∀ (acc y : List Char), (∀ c ∈ p, c ≠ '\n') →
      splitNavAux (p ++ y) acc = splitNavAux y (p.reverse ++ acc) := by
  induction p with
  | nil => intro acc y _; simp
  | cons c rest ih =>
    intro acc y h
    have hc : c ≠ '\n' := h c (by simp)
    rw [List.cons_append, splitNavAux_cons_other c _ _ hc,
      ih (c :: acc) y (fun d hd => h d (by simp [hd]))]
    simp

/-- C6: `parseComputerUseNavigationDelta` is restartable.  For every input
`s` and split position `i`, parsing `s.take i` with an empty buffer and then
`s.drop i` with the returned buffer yields the same concatenated
`prettyLines` and `steps`, the same final buffer, and the same `sawDone`
(disjunction of the two calls), as a single call on all of `s`. -/
theorem parseNavigationDelta_restartable (s : List Char) (i : ℕ) :
    (parseComputerUseNavigationDelta (s.take i) []).prettyLines ++
      (parseComputerUseNavigationDelta (s.drop i)
        (parseComputerUseNavigationDelta (s.take i) []).nextBuffer).prettyLines =
      (parseComputerUseNavigationDelta s []).prettyLines ∧
    (parseComputerUseNavigationDelta (s.take i) []).steps ++
      (parseComputerUseNavigationDelta (s.drop i)
        (parseComputerUseNavigationDelta (s.take i) []).nextBuffer).steps =
      (parseComputerUseNavigationDelta s []).steps ∧
    (parseComputerUseNavigationDelta (s.drop i)
        (parseComputerUseNavigationDelta (s.take i) []).nextBuffer).nextBuffer =
      (parseComputerUseNavigationDelta s []).nextBuffer ∧
    ((parseComputerUseNavigationDelta (s.take i) []).sawDone ||
      (parseComputerUseNavigationDelta (s.drop i)
        (parseComputerUseNavigationDelta (s.take i) []).nextBuffer).sawDone) =
      (parseComputerUseNavigationDelta s []).sawDone := by
  have hxy : s.take i ++ s.drop i = s := List.take_append_drop i s
  have hnb : ∀ c ∈ (splitNavAux (s.take i) []).2, c ≠ '\n' :=
    splitNavAux_buffer_no_newline (s.take i) [] (by intro d hd; simp at hd)
  have h2 : splitNavAux ((splitNavAux (s.take i) []).2 ++ s.drop i) [] =
      splitNavAux (s.drop i) ((splitNavAux (s.take i) []).2.reverse) := by
    rw [splitNavAux_skip_no_newline _ [] _ hnb]
    simp
  have hs : splitNavAux s [] =
      ((splitNavAux (s.take i) []).1 ++
        (splitNavAux (s.drop i) ((splitNavAux (s.take i) []).2.reverse)).1,
       (splitNavAux (s.drop i) ((splitNavAux (s.take i) []).2.reverse)).2) := by
    conv_lhs => rw [← hxy]
    exact splitNavAux_append (s.take i) [] (s.drop i)
  unfold parseComputerUseNavigationDelta
  simp only [List.nil_append, h2, hs]
  simp [List.filterMap_append, List.any_append]

/-! ### History-sanitizer lemmas -/

theorem isMixedUserTurn_iff (c : GContent) :
    isMixedUserTurn c = true ↔
      (c.role = "user" ∧ 0 < textPartCount c ∧ 0 < functionResponsePartCount c) := by
  simp [isMixedUserTurn, Bool.and_eq_true, decide_eq_true_iff, and_assoc]

/-- C7: a history containing a user turn with both a non-empty text part and
a `functionResponse` part fails validation and the sanitizer resets it to the
empty history (no partial repair); a history whose user turns all satisfy the
invariant is returned unchanged. -/
theorem sanitizer_resets_mixed_user_turns_keeps_valid :
    (∀ contents : List GContent,
      (∃ c ∈ contents, c.role = "user" ∧ 0 < textPartCount c ∧
        0 < functionResponsePartCount c) →
      sanitizeGeminiComputerUseContents contents = []) ∧
    (∀ contents : List GContent,
      (∀ c ∈ contents, ¬(c.role = "user" ∧ 0 < textPartCount c ∧
        0 < functionResponsePartCount c)) →
      sanitizeGeminiComputerUseContents contents = contents) := by
  constructor
  · intro contents hmix
    obtain ⟨c, hc, hmixc⟩ := hmix
    have hvalid : validGeminiCuContents contents = false := by
      rw [validGeminiCuContents]
      by_contra hall
      have hall' := List.all_eq_true.mp (Bool.of_not_eq_false hall) c hc
      rw [Bool.not_eq_eq_eq_not, Bool.not_true] at hall'
      exact absurd ((isMixedUserTurn_iff c).mpr hmixc) (by simp [hall'])
    rw [sanitizeGeminiComputerUseContents, hvalid]
    simp
  · intro contents hok
    have hvalid : validGeminiCuContents contents = true := by
      rw [validGeminiCuContents]
      refine List.all_eq_true.mpr fun c hc => ?_
      have hnot : ¬ (isMixedUserTurn c = true) := fun ht =>
        hok c hc ((isMixedUserTurn_iff c).mp ht)
      simp [Bool.of_not_eq_true hnot]
    rw [sanitizeGeminiComputerUseContents, hvalid]
    simp

/-- Witness for `sanitizer_resets_mixed_user_turns_keeps_valid`: a mixed user
turn is reset to `[]`; a well-formed prompt turn plus model turn is kept. -/
theorem sanitizer_resets_mixed_user_turns_keeps_valid_witness :
    sanitizeGeminiComputerUseContents
        [⟨"user", [GPart.textOnly "open gmail", GPart.fnResponse "click_at"]⟩] = [] ∧
    sanitizeGeminiComputerUseContents
        [⟨"user", [GPart.textOnly "open gmail"]⟩, ⟨"model", [GPart.fnCall "click_at"]⟩] =
      [⟨"user", [GPart.textOnly "open gmail"]⟩, ⟨"model", [GPart.fnCall "click_at"]⟩] :=
  ⟨sanitizer_resets_mixed_user_turns_keeps_valid.1 _
      ⟨⟨"user", [GPart.textOnly "open gmail", GPart.fnResponse "click_at"]⟩,
        by simp, by decide⟩,
   sanitizer_resets_mixed_user_turns_keeps_valid.2 _ (by decide)⟩

theorem dropWhile_self_of_dropWhile {α : Type} (p : α → Bool) (l : List α) :
    (l.dropWhile p).dropWhile p = l.dropWhile p := by
  induction l with
  | nil => rfl
  | cons a t ih =>
    by_cases ha : p a = true
    · rw [List.dropWhile_cons_of_pos ha, ih]
    · rw [List.dropWhile_cons_of_neg (by simp [ha]),
        List.dropWhile_cons_of_neg (by simp [ha])]

theorem dropWhile_head?_not {α : Type} (p : α → Bool) (l : List α) :
    ∀ c, (l.dropWhile p).head? = some c → p c = false := by
  induction l with
  | nil => intro c hc; simp at hc
  | cons a t ih =>
    intro c hc
    by_cases ha : p a = true
    · rw [List.dropWhile_cons_of_pos ha] at hc
      exact ih c hc
    · rw [List.dropWhile_cons_of_neg (by simp [ha])] at hc
      simp only [List.head?_cons, Option.some.injEq] at hc
      rw [← hc]
      simpa using ha

/-- C8: `pruneDanglingGeminiFunctionCalls` is idempotent, and its output
never ends with a `model` turn containing a tool-invocation
(`functionCall`/`function_call`) part. -/
theorem pruneDangling_idempotent_and_clean_tail :
    (∀ contents : List GContent,
      pruneDanglingGeminiFunctionCalls (pruneDanglingGeminiFunctionCalls contents) =
        pruneDanglingGeminiFunctionCalls contents) ∧
    (∀ (contents : List GContent) (c : GContent),
      (pruneDanglingGeminiFunctionCalls contents).getLast? = some c →
      isDanglingModelTurn c = false) := by
  constructor
  · intro contents
    unfold pruneDanglingGeminiFunctionCalls
    rw [List.reverse_reverse, dropWhile_self_of_dropWhile]
  · intro contents c hc
    unfold pruneDanglingGeminiFunctionCalls at hc
    rw [List.getLast?_reverse] at hc
    exact dropWhile_head?_not _ _ c hc

/-- Witness for `pruneDangling_idempotent_and_clean_tail`: pruning a history
ending in two dangling model turns. -/
theorem pruneDangling_idempotent_and_clean_tail_witness :
    (pruneDanglingGeminiFunctionCalls (pruneDanglingGeminiFunctionCalls
        [⟨"user", [GPart.textOnly "hi"]⟩, ⟨"model", [GPart.fnCall "click_at"]⟩,
         ⟨"model", [GPart.fnCall "wait"]⟩]) =
      pruneDanglingGeminiFunctionCalls
        [⟨"user", [GPart.textOnly "hi"]⟩, ⟨"model", [GPart.fnCall "click_at"]⟩,
         ⟨"model", [GPart.fnCall "wait"]⟩]) ∧
    isDanglingModelTurn ⟨"user", [GPart.textOnly "hi"]⟩ = false :=
  ⟨pruneDangling_idempotent_and_clean_tail.1 _,
   pruneDangling_idempotent_and_clean_tail.2
      [⟨"user", [GPart.textOnly "hi"]⟩, ⟨"model", [GPart.fnCall "click_at"]⟩,
       ⟨"model", [GPart.fnCall "wait"]⟩] _ (by decide)⟩

/-! ### Action-executor theorems -/

/-- C9 (amended): the action dispatch is total — every action name and
argument record yields a structured result, and an unrecognized name yields
`{ok:false}` with an "Unsupported action" error — and every *recognized*
branch's response (and the exception handler's) carries the post-action
surface URL; the unknown-action branch, however, returns no `url` field. -/
theorem executor_total_and_url_on_known_branches :
    (∀ (name : String) (args : CuArgs) (ctx : CuCtx),
      name ∈ (["open_web_browser", "search", "open_page", "open_url", "openurl",
        "navigate", "go_back", "go_forward", "wait_5_seconds", "wait", "click_at",
        "hover_at", "type_text_at", "scroll_document", "scroll_at", "key_combination",
        "drag_and_drop"] : List String) →
      (executeComputerUseAction name args ctx).url.isSome = true) ∧
    (∀ (name : String) (args : CuArgs) (ctx : CuCtx),
      name ∉ (["open_web_browser", "search", "open_page", "open_url", "openurl",
        "navigate", "go_back", "go_forward", "wait_5_seconds", "wait", "click_at",
        "hover_at", "type_text_at", "scroll_document", "scroll_at", "key_combination",
        "drag_and_drop"] : List String) →
      executeComputerUseAction name args ctx =
        ⟨false, some ("Unsupported action " ++ name), none, none, none⟩) ∧
    (∀ (message : String) (ctx : CuCtx),
      (cuCatchResponse message ctx).url = some ctx.tabUrl) := by
  refine ⟨?_, ?_, fun _ _ => rfl⟩
  · intro name args ctx hmem
    simp only [List.mem_cons, List.not_mem_nil, or_false] at hmem
    rcases hmem with rfl|rfl|rfl|rfl|rfl|rfl|rfl|rfl|rfl|rfl|rfl|rfl|rfl|rfl|rfl|rfl|rfl
    all_goals simp [executeComputerUseAction]
    all_goals try (split <;> simp)
  · intro name args ctx hmem
    simp only [List.mem_cons, List.not_mem_nil, or_false, not_or] at hmem
    obtain ⟨h1, h2, h3, h4, h5, h6, h7, h8, h9, h10, h11, h12, h13, h14, h15, h16, h17⟩ := hmem
    simp [executeComputerUseAction, h1, h2, h3, h4, h5, h6, h7, h8, h9, h10, h11, h12, h13,
      h14, h15, h16, h17]

/-- Witness for `executor_total_and_url_on_known_branches`. -/
theorem executor_total_and_url_on_known_branches_witness :
    (executeComputerUseAction "go_back" CuArgs.empty
        ⟨"https://example.com", 1440, 900, none, false⟩).url.isSome = true ∧
    executeComputerUseAction "frobnicate" CuArgs.empty
        ⟨"https://example.com", 1440, 900, none, false⟩ =
      ⟨false, some ("Unsupported action " ++ "frobnicate"), none, none, none⟩ ∧
    (cuCatchResponse "boom" ⟨"https://example.com", 1440, 900, none, false⟩).url =
      some "https://example.com" :=
  ⟨executor_total_and_url_on_known_branches.1 "go_back" CuArgs.empty
      ⟨"https://example.com", 1440, 900, none, false⟩ (by simp),
   executor_total_and_url_on_known_branches.2.1 "frobnicate" CuArgs.empty
      ⟨"https://example.com", 1440, 900, none, false⟩ (by simp),
   executor_total_and_url_on_known_branches.2.2 "boom"
      ⟨"https://example.com", 1440, 900, none, false⟩⟩

/-- C9 counterexample: the unknown-action branch's response does *not*
contain the post-action surface URL — its `url` field is absent — so "every
branch's response contains the post-action surface URL" fails. -/
theorem executor_unknown_action_response_lacks_url :
    (executeComputerUseAction "frobnicate" CuArgs.empty
        ⟨"https://example.com", 1440, 900, none, false⟩).url = none ∧
    (executeComputerUseAction "frobnicate" CuArgs.empty
        ⟨"https://example.com", 1440, 900, none, false⟩).ok = false := by
  constructor <;> rfl

/-! ### Malformed-coordinate theorems -/

theorem denormalizeCoord_of_nonfinite {a : CoordArg} (h : a.toFiniteNumber = none)
    (m : ℤ) : denormalizeCoord a m = 0 := by
  unfold denormalizeCoord
  rw [h]

theorem mapCoordPixel_origin {a : CoordArg} {offset : ℚ}
    (h : a.toFiniteNumber = none) (hoff : offset = 0) (dm vm : ℤ) (hvm : 0 ≤ vm) :
    mapCoordPixel a offset dm vm = 0 := by
  unfold mapCoordPixel
  rw [denormalizeCoord_of_nonfinite h, hoff]
  have hz : jsRound ((0 : ℚ) + ((0 : ℤ) : ℚ)) = 0 := by
    unfold jsRound
    norm_num
  rw [hz, min_eq_right hvm]
  simp

/-- C10: a coordinate argument that is absent, a non-numeric string, `NaN`
or `Infinity` makes `denormalizeCoord` return 0, so a `click_at` with
malformed coordinates (under a stored frame transform, whose offsets are
always 0) succeeds at the clamped origin pixel `(0,0)` rather than producing
an error result. -/
theorem malformed_coordinates_execute_at_origin :
    (∀ (a : CoordArg) (m : ℤ),
      a = .absent ∨ a = .nonNumericStr ∨ a = .nan ∨ a = .infinite →
      denormalizeCoord a m = 0) ∧
    (∀ (args : CuArgs) (ctx : CuCtx) (f : FrameTransform),
      ctx.frame = some f → f.offsetXCss = 0 → f.offsetYCss = 0 →
      args.x.toFiniteNumber = none → args.y.toFiniteNumber = none →
      ctx.driftDetected = false →
      executeComputerUseAction "click_at" args ctx =
        ⟨true, none, some ctx.tabUrl, some 0, some 0⟩) := by
  constructor
  · rintro a m (rfl | rfl | rfl | rfl) <;> rfl
  · intro args ctx f hf hox hoy hx hy hd
    have hgx : (cuGeometry ctx args).1 = 0 := by
      unfold cuGeometry
      rw [hf]
      exact mapCoordPixel_origin hx hox _ _ (le_max_left _ _)
    have hgy : (cuGeometry ctx args).2.1 = 0 := by
      unfold cuGeometry
      rw [hf]
      exact mapCoordPixel_origin hy hoy _ _ (le_max_left _ _)
    simp [executeComputerUseAction, hd, hgx, hgy]

/-- Witness for `malformed_coordinates_execute_at_origin` with an absent `x`
and a `NaN` `y` under the identity frame transform. -/
theorem malformed_coordinates_execute_at_origin_witness :
    denormalizeCoord .nan 99 = 0 ∧
    executeComputerUseAction "click_at"
        ⟨.absent, .nan, .absent, .absent, none, none, none, none⟩
        ⟨"https://example.com", 1440, 900, some ⟨1440, 900, 0, 0, 1440, 900⟩, false⟩ =
      ⟨true, none, some "https://example.com", some 0, some 0⟩ :=
  ⟨malformed_coordinates_execute_at_origin.1 .nan 99 (by simp),
   malformed_coordinates_execute_at_origin.2
      ⟨.absent, .nan, .absent, .absent, none, none, none, none⟩
      ⟨"https://example.com", 1440, 900, some ⟨1440, 900, 0, 0, 1440, 900⟩, false⟩
      ⟨1440, 900, 0, 0, 1440, 900⟩ rfl rfl rfl rfl rfl rfl⟩

end BlueberryCU
